import Mathlib

/-!
Shallow embedding of the I-765 monitor (`sample_run_3.py`) and of the action
handler pipeline (`pipelines/handler_pipeline.py`).

Modelling conventions:
* raw byte buffers are `List Nat`;
* Python dicts are association lists (`Dict α`) that preserve insertion order;
* the external PDF libraries (`hashlib`, `pikepdf`, `pdfplumber`) are an opaque
  capability record `PdfLib`; `none` from a parse function models the library
  raising an exception on `open`;
* Python's `difflib.unified_diff` (used by `TextDiff.diff`) is transcribed in
  full below (`SequenceMatcher` with `isjunk = None` and `autojunk = True`).
-/

/-- Raw byte buffers (`bytes`). -/
abbrev Bytes := List Nat

/-- Python dicts with string keys, as insertion-ordered association lists. -/
abbrev Dict (α : Type) := List (String × α)

/-- Keys of a dict, in insertion order (`list(d)`). -/
def Dict.keys {α : Type} (d : Dict α) : List String := d.map Prod.fst

/-- Python `d[k] = v`: replace in place if the key exists, else append. -/
def Dict.setItem {α : Type} (d : Dict α) (k : String) (v : α) : Dict α :=
  if (d.lookup k).isSome then d.map (fun p => if p.1 = k then (k, v) else p)
  else d ++ [(k, v)]

/-- Python `str.splitlines()` (no kept ends; recognises `\r\n`, `\r`, `\n`). -/
def splitlinesAux : List Char → List Char → List String
  | [], acc => if acc.isEmpty then [] else [String.mk acc.reverse]
  | '\r' :: '\n' :: rest, acc => String.mk acc.reverse :: splitlinesAux rest []
  | '\r' :: rest, acc => String.mk acc.reverse :: splitlinesAux rest []
  | '\n' :: rest, acc => String.mk acc.reverse :: splitlinesAux rest []
  | c :: rest, acc => splitlinesAux rest (c :: acc)

/-- Python `s.splitlines()`. -/
def splitlines (s : String) : List String := splitlinesAux s.data []

/-!
`difflib.SequenceMatcher(None, a, b)` over lists of lines.

`__chain_b`: `b2j` maps a line to the ascending list of its indices in `b`;
with `autojunk = True`, when `len(b) >= 200`, an element occurring more than
`len(b) // 100 + 1` times is purged from `b2j`.  `isjunk` is `None`, so the
junk set `bjunk` is empty.
-/

/-- `b2j.get(x, [])` after the autojunk purge of popular elements. -/
def b2jIdx (b : List String) (x : String) : List Nat :=
  let idxs := (List.range b.length).filter (fun j => decide (b.getD j "" = x))
  if 200 ≤ b.length ∧ b.length / 100 + 1 < idxs.length then [] else idxs

/-- One row `i` of `find_longest_match`'s dynamic program: walk the candidate
positions `j` of line `a[i]` in `b` (`for j in b2j.get(a[i], [])` with the
`blo`/`bhi` window applied), reading the previous row's `j2len` and building
the new one (`newj2len`), updating the best block on the way.  The state is
`(newj2len, (besti, bestj, bestk))`; `j2len.get(-1, 0)` of the source is the
`j = 0` case. -/
def flmRowGo (j2len : Nat → Nat) (i : Nat) :
    List Nat → (Nat → Nat) × (Nat × Nat × Nat) → (Nat → Nat) × (Nat × Nat × Nat)
  | [], st => st
  | j :: js, st =>
    let k := (if j = 0 then 0 else j2len (j - 1)) + 1
    let nj : Nat → Nat := fun x => if x = j then k else st.1 x
    flmRowGo j2len i js
      (if st.2.2.2 < k then (nj, (i + 1 - k, j + 1 - k, k)) else (nj, st.2))

/-- The outer loop of `find_longest_match` over `i in range(alo, ahi)`; the
state carries `(j2len, (besti, bestj, bestk))` across rows. -/
def flmRowsGo (a b : List String) (blo bhi : Nat) :
    List Nat → (Nat → Nat) × (Nat × Nat × Nat) → (Nat → Nat) × (Nat × Nat × Nat)
  | [], st => st
  | i :: rows, st =>
    let js := (b2jIdx b (a.getD i "")).filter
      (fun j => decide (blo ≤ j) && decide (j < bhi))
    flmRowsGo a b blo bhi rows (flmRowGo st.1 i js ((fun _ => 0), st.2))

/-- The first `while` loop of `find_longest_match`: extend the best block to
the left while the adjacent lines match (`bjunk` is empty, so the junk
conditions are vacuous). -/
def flmExtendLeft (a b : List String) (alo blo besti bestj bestk : Nat) :
    Nat × Nat × Nat :=
  if h : alo < besti ∧ blo < bestj ∧ a.getD (besti - 1) "" = b.getD (bestj - 1) "" then
    flmExtendLeft a b alo blo (besti - 1) (bestj - 1) (bestk + 1)
  else (besti, bestj, bestk)
termination_by besti
decreasing_by simp_wf; omega

/-- The second `while` loop of `find_longest_match`: extend to the right. -/
def flmExtendRight (a b : List String) (ahi bhi besti bestj bestk : Nat) : Nat :=
  if h : besti + bestk < ahi ∧ bestj + bestk < bhi ∧
      a.getD (besti + bestk) "" = b.getD (bestj + bestk) "" then
    flmExtendRight a b ahi bhi besti bestj (bestk + 1)
  else bestk
termination_by ahi - (besti + bestk)
decreasing_by simp_wf; omega

/-- `SequenceMatcher.find_longest_match(alo, ahi, blo, bhi)`.  The two junk
extension loops of the source are no-ops because `bjunk` is empty. -/
def flmCore (a b : List String) (alo ahi blo bhi : Nat) : Nat × Nat × Nat :=
  flmExtendLeft a b alo blo
    (flmRowsGo a b blo bhi (List.range' alo (ahi - alo))
      ((fun _ => 0), (alo, blo, 0))).2.1
    (flmRowsGo a b blo bhi (List.range' alo (ahi - alo))
      ((fun _ => 0), (alo, blo, 0))).2.2.1
    (flmRowsGo a b blo bhi (List.range' alo (ahi - alo))
      ((fun _ => 0), (alo, blo, 0))).2.2.2

def findLongestMatch (a b : List String) (alo ahi blo bhi : Nat) :
    Nat × Nat × Nat :=
  ((flmCore a b alo ahi blo bhi).1, (flmCore a b alo ahi blo bhi).2.1,
    flmExtendRight a b ahi bhi (flmCore a b alo ahi blo bhi).1
      (flmCore a b alo ahi blo bhi).2.1 (flmCore a b alo ahi blo bhi).2.2)

/-- Invariant of one dynamic-program row: every chain length recorded so far
is at most the number of rows processed, and the best block lies inside
`[alo, i + 1)` on the `a` side. -/
lemma flmRowGo_inv (alo i : Nat) (j2len : Nat → Nat)
    (hi : alo ≤ i) (hj : ∀ x, j2len x + alo ≤ i) :
    ∀ (js : List Nat) (st : (Nat → Nat) × (Nat × Nat × Nat)),
      (∀ x, st.1 x + alo ≤ i + 1) → alo ≤ st.2.1 → st.2.1 + st.2.2.2 ≤ i + 1 →
      (∀ x, (flmRowGo j2len i js st).1 x + alo ≤ i + 1) ∧
        alo ≤ (flmRowGo j2len i js st).2.1 ∧
        (flmRowGo j2len i js st).2.1 + (flmRowGo j2len i js st).2.2.2 ≤ i + 1 := by
  intro js
  induction js with
  | nil => intro st h1 h2 h3; exact ⟨h1, h2, h3⟩
  | cons j js ih =>
    intro st h1 h2 h3
    have hk : ((if j = 0 then 0 else j2len (j - 1)) + 1) + alo ≤ i + 1 := by
      by_cases hj0 : j = 0
      · rw [if_pos hj0]; omega
      · rw [if_neg hj0]; have := hj (j - 1); omega
    simp only [flmRowGo]
    generalize hK : (if j = 0 then 0 else j2len (j - 1)) + 1 = k at hk ⊢
    by_cases hc : st.2.2.2 < k
    · rw [if_pos hc]
      apply ih
      · intro x
        by_cases hx : x = j
        · simpa [hx] using hk
        · simpa [hx] using h1 x
      · simp only
        omega
      · simp only
        omega
    · rw [if_neg hc]
      apply ih
      · intro x
        by_cases hx : x = j
        · simpa [hx] using hk
        · simpa [hx] using h1 x
      · exact h2
      · exact h3

/-- Invariant of the outer row loop: after processing rows `i0, …, i0+n-1`,
the best block lies inside `[alo, i0 + n)` on the `a` side. -/
lemma flmRowsGo_inv (a b : List String) (blo bhi alo : Nat) :
    ∀ (n i0 : Nat) (st : (Nat → Nat) × (Nat × Nat × Nat)),
      alo ≤ i0 → (∀ x, st.1 x + alo ≤ i0) → alo ≤ st.2.1 → st.2.1 + st.2.2.2 ≤ i0 →
      alo ≤ (flmRowsGo a b blo bhi (List.range' i0 n) st).2.1 ∧
        (flmRowsGo a b blo bhi (List.range' i0 n) st).2.1 +
          (flmRowsGo a b blo bhi (List.range' i0 n) st).2.2.2 ≤ i0 + n := by
  intro n
  induction n with
  | zero =>
    intro i0 st h0 h1 h2 h3
    simpa [List.range', flmRowsGo] using ⟨h2, by omega⟩
  | succ n ih =>
    intro i0 st h0 h1 h2 h3
    rw [List.range'_succ]
    simp only [flmRowsGo]
    have hrow := flmRowGo_inv alo i0 st.1 h0 h1
      (((b2jIdx b (a.getD i0 "")).filter
        (fun j => decide (blo ≤ j) && decide (j < bhi))))
      ((fun _ => 0), st.2)
      (fun x => by show (0 : Nat) + alo ≤ i0 + 1; omega)
      (by show alo ≤ st.2.1; omega)
      (by show st.2.1 + st.2.2.2 ≤ i0 + 1; omega)
    have hrec := ih (i0 + 1)
      (flmRowGo st.1 i0
        ((b2jIdx b (a.getD i0 "")).filter
          (fun j => decide (blo ≤ j) && decide (j < bhi)))
        ((fun _ => 0), st.2))
      (by omega) hrow.1 hrow.2.1 hrow.2.2
    exact ⟨hrec.1, by omega⟩

/-- The left extension loop preserves the left bound and the right edge of the
best block. -/
lemma flmExtendLeft_inv (a b : List String) (alo blo : Nat) :
    ∀ besti bestj bestk, alo ≤ besti →
      alo ≤ (flmExtendLeft a b alo blo besti bestj bestk).1 ∧
        (flmExtendLeft a b alo blo besti bestj bestk).1 +
          (flmExtendLeft a b alo blo besti bestj bestk).2.2 = besti + bestk := by
  intro besti
  induction besti using Nat.strong_induction_on with
  | _ besti ih =>
    intro bestj bestk hle
    unfold flmExtendLeft
    split
    case isTrue hcond =>
      have h := ih (besti - 1) (by omega) (bestj - 1) (bestk + 1) (by omega)
      exact ⟨h.1, by omega⟩
    case isFalse hcond => exact ⟨hle, rfl⟩

/-- The right extension loop never pushes the block past `ahi`. -/
lemma flmExtendRight_le (a b : List String) (ahi bhi besti bestj : Nat) :
    ∀ d bestk, ahi - (besti + bestk) ≤ d → besti + bestk ≤ ahi →
      besti + flmExtendRight a b ahi bhi besti bestj bestk ≤ ahi := by
  intro d
  induction d with
  | zero =>
    intro bestk h0 hle
    unfold flmExtendRight
    split
    case isTrue hc => exact absurd hc.1 (by omega)
    case isFalse hc => exact hle
  | succ d ih =>
    intro bestk h0 hle
    unfold flmExtendRight
    split
    case isTrue hc => exact ih (bestk + 1) (by omega) (by omega)
    case isFalse hc => exact hle

/-- Bounds of `find_longest_match` on the `a` side, used for termination of
the matching-block recursion. -/
lemma flm_bounds (a b : List String) (alo ahi blo bhi : Nat) :
    alo ≤ (findLongestMatch a b alo ahi blo bhi).1 ∧
      ((findLongestMatch a b alo ahi blo bhi).2.2 ≠ 0 →
        (findLongestMatch a b alo ahi blo bhi).1 +
          (findLongestMatch a b alo ahi blo bhi).2.2 ≤ ahi) := by
  unfold findLongestMatch
  rcases le_or_lt alo ahi with hle | hlt
  · unfold flmCore
    set r := flmRowsGo a b blo bhi (List.range' alo (ahi - alo))
      ((fun _ => 0), (alo, blo, 0)) with hrdef
    have hrows := flmRowsGo_inv a b blo bhi alo (ahi - alo) alo
      ((fun _ => 0), (alo, blo, 0)) le_rfl
      (fun x => by show (0 : Nat) + alo ≤ alo; omega)
      (by show alo ≤ alo; omega)
      (by show alo + 0 ≤ alo; omega)
    rw [← hrdef] at hrows
    set t := flmExtendLeft a b alo blo r.2.1 r.2.2.1 r.2.2.2 with htdef
    have hleft := flmExtendLeft_inv a b alo blo r.2.1 r.2.2.1 r.2.2.2 hrows.1
    rw [← htdef] at hleft
    have hsum : t.1 + t.2.2 ≤ ahi := by omega
    have hright := flmExtendRight_le a b ahi bhi t.1 t.2.1 ahi t.2.2
      (by omega) hsum
    exact ⟨hleft.1, fun _ => hright⟩
  · have hz : ahi - alo = 0 := by omega
    unfold flmCore
    rw [hz]
    have h1 : flmExtendLeft a b alo blo alo blo 0 = (alo, blo, 0) := by
      unfold flmExtendLeft
      exact dif_neg (fun hc => absurd hc.1 (lt_irrefl alo))
    have h2 : flmExtendRight a b ahi bhi alo blo 0 = 0 := by
      unfold flmExtendRight
      exact dif_neg (fun hc => absurd hc.1 (by omega))
    simp only [List.range', flmRowsGo, h1, h2]
    exact ⟨le_rfl, fun hcon => absurd rfl hcon⟩

/-- `SequenceMatcher.get_matching_blocks`, before merging: the queue-driven
loop of the source collects the same set of blocks as this divide-and-conquer
recursion and then sorts them; an in-order traversal (left part, block, right
part) already yields that sorted list, because every block found in the left
interval has `i < besti` and every block in the right interval has
`i > besti`. -/
def matchingBlocksRec (a b : List String) (alo ahi blo bhi : Nat) :
    List (Nat × Nat × Nat) :=
  if hk : (findLongestMatch a b alo ahi blo bhi).2.2 = 0 then []
  else
    (if h1 : alo < (findLongestMatch a b alo ahi blo bhi).1 ∧
        blo < (findLongestMatch a b alo ahi blo bhi).2.1 then
      matchingBlocksRec a b alo (findLongestMatch a b alo ahi blo bhi).1
        blo (findLongestMatch a b alo ahi blo bhi).2.1
    else []) ++
    (findLongestMatch a b alo ahi blo bhi ::
      (if h2 : (findLongestMatch a b alo ahi blo bhi).1 +
            (findLongestMatch a b alo ahi blo bhi).2.2 < ahi ∧
          (findLongestMatch a b alo ahi blo bhi).2.1 +
            (findLongestMatch a b alo ahi blo bhi).2.2 < bhi then
        matchingBlocksRec a b
          ((findLongestMatch a b alo ahi blo bhi).1 +
            (findLongestMatch a b alo ahi blo bhi).2.2) ahi
          ((findLongestMatch a b alo ahi blo bhi).2.1 +
            (findLongestMatch a b alo ahi blo bhi).2.2) bhi
      else []))
termination_by ahi - alo
decreasing_by
  · have hb := flm_bounds a b alo ahi blo bhi
    have := hb.2 hk
    omega
  · have hb := flm_bounds a b alo ahi blo bhi
    have := hb.2 hk
    omega

/-- The merge loop at the end of `get_matching_blocks`: adjacent blocks are
coalesced; `(i1, j1, k1)` is the pending block, emitted when non-adjacent. -/
def mergeAdjacentBlocks : Nat → Nat → Nat → List (Nat × Nat × Nat) →
    List (Nat × Nat × Nat)
  | i1, j1, k1, [] => if k1 ≠ 0 then [(i1, j1, k1)] else []
  | i1, j1, k1, (i2, j2, k2) :: rest =>
    if i1 + k1 = i2 ∧ j1 + k1 = j2 then mergeAdjacentBlocks i1 j1 (k1 + k2) rest
    else (if k1 ≠ 0 then [(i1, j1, k1)] else []) ++ mergeAdjacentBlocks i2 j2 k2 rest

/-- `SequenceMatcher.get_matching_blocks()`, including the `(la, lb, 0)`
sentinel. -/
def getMatchingBlocks (a b : List String) : List (Nat × Nat × Nat) :=
  mergeAdjacentBlocks 0 0 0 (matchingBlocksRec a b 0 a.length 0 b.length) ++
    [(a.length, b.length, 0)]

/-- An opcode `(tag, i1, i2, j1, j2)`. -/
abbrev Opcode := String × Nat × Nat × Nat × Nat

/-- The loop of `SequenceMatcher.get_opcodes()`. -/
def opcodesLoop : Nat → Nat → List (Nat × Nat × Nat) → List Opcode
  | _, _, [] => []
  | i, j, (ai, bj, size) :: rest =>
    (if i < ai ∧ j < bj then [("replace", i, ai, j, bj)]
     else if i < ai then [("delete", i, ai, j, bj)]
     else if j < bj then [("insert", i, ai, j, bj)]
     else []) ++
    ((if size ≠ 0 then [("equal", ai, ai + size, bj, bj + size)] else []) ++
      opcodesLoop (ai + size) (bj + size) rest)

/-- `SequenceMatcher.get_opcodes()`. -/
def getOpcodes (a b : List String) : List Opcode :=
  opcodesLoop 0 0 (getMatchingBlocks a b)

/-- Context radius `n = 3` of `unified_diff`. -/
def groupedN : Nat := 3

/-- `get_grouped_opcodes`: shrink a leading `equal` opcode to `n` lines of
context. -/
def fixupHead (n : Nat) : List Opcode → List Opcode
  | [] => []
  | (tag, i1, i2, j1, j2) :: rest =>
    if tag = "equal" then (tag, max i1 (i2 - n), i2, max j1 (j2 - n), j2) :: rest
    else (tag, i1, i2, j1, j2) :: rest

/-- `get_grouped_opcodes`: shrink a trailing `equal` opcode to `n` lines of
context. -/
def fixupLast (n : Nat) : List Opcode → List Opcode
  | [] => []
  | [(tag, i1, i2, j1, j2)] =>
    if tag = "equal" then [(tag, i1, min i2 (i1 + n), j1, min j2 (j1 + n))]
    else [(tag, i1, i2, j1, j2)]
  | c :: rest => c :: fixupLast n rest

/-- The grouping loop of `get_grouped_opcodes`: a large interior `equal`
opcode closes the current group and opens the next one; a final group that is
a single `equal` opcode is dropped. -/
def groupSplit (n : Nat) (group : List Opcode) : List Opcode → List (List Opcode)
  | [] =>
    if group ≠ [] ∧ ¬(group.length = 1 ∧ (group.headD ("", 0, 0, 0, 0)).1 = "equal")
    then [group] else []
  | (tag, i1, i2, j1, j2) :: rest =>
    if tag = "equal" ∧ n + n < i2 - i1 then
      (group ++ [(tag, i1, min i2 (i1 + n), j1, min j2 (j1 + n))]) ::
        groupSplit n [(tag, max i1 (i2 - n), i2, max j1 (j2 - n), j2)] rest
    else groupSplit n (group ++ [(tag, i1, i2, j1, j2)]) rest

/-- `SequenceMatcher.get_grouped_opcodes(n = 3)`, including the
`[("equal", 0, 1, 0, 1)]` replacement for an empty opcode list. -/
def getGroupedOpcodes (a b : List String) : List (List Opcode) :=
  groupSplit groupedN []
    (fixupLast groupedN (fixupHead groupedN
      (if getOpcodes a b = [] then [("equal", 0, 1, 0, 1)] else getOpcodes a b)))

/-- `difflib._format_range_unified`. -/
def formatRangeUnified (start stop : Nat) : String :=
  if stop - start = 1 then toString (start + 1)
  else
    toString (if stop - start = 0 then start else start + 1) ++ "," ++
      toString (stop - start)

/-- Python slice `l[i1:i2]`. -/
def sliceList (l : List String) (i1 i2 : Nat) : List String :=
  (l.drop i1).take (i2 - i1)

/-- The per-opcode body lines of `unified_diff`: context lines for `equal`,
`-` lines from `a` for `replace`/`delete`, `+` lines from `b` for
`replace`/`insert`. -/
def opcodeLines (a b : List String) : Opcode → List String
  | (tag, i1, i2, j1, j2) =>
    if tag = "equal" then (sliceList a i1 i2).map (fun line => " " ++ line)
    else
      (if tag = "replace" ∨ tag = "delete" then
        (sliceList a i1 i2).map (fun line => "-" ++ line)
      else []) ++
      (if tag = "replace" ∨ tag = "insert" then
        (sliceList b j1 j2).map (fun line => "+" ++ line)
      else [])

/-- The `@@ -r1 +r2 @@` hunk header of one group (with `lineterm = ""`). -/
def groupHeader (g : List Opcode) : String :=
  "@@ -" ++
    formatRangeUnified (g.headD ("", 0, 0, 0, 0)).2.1
      (g.getLastD ("", 0, 0, 0, 0)).2.2.1 ++
  " +" ++
    formatRangeUnified (g.headD ("", 0, 0, 0, 0)).2.2.2.1
      (g.getLastD ("", 0, 0, 0, 0)).2.2.2.2 ++
  " @@"

/-- The line sequence produced by
`difflib.unified_diff(a, b, lineterm="")` with default (empty) file names:
the two `---`/`+++` header lines are emitted once before the first group. -/
def unifiedDiffLines (a b : List String) : List String :=
  if getGroupedOpcodes a b = [] then []
  else
    "--- " :: "+++ " ::
      (getGroupedOpcodes a b).flatMap
        (fun g => groupHeader g :: g.flatMap (opcodeLines a b))

/-- `TextDiff.diff`: `"".join(difflib.unified_diff(old.splitlines(),
new.splitlines(), lineterm=""))`. -/
def TextDiff.diff (old new : String) : String :=
  String.join (unifiedDiffLines (splitlines old) (splitlines new))

/-!
The extraction layer.  `hashlib.sha256`, `pikepdf` and `pdfplumber` are
external libraries; they are modelled as an opaque capability record.  A
`none` result of a parse function models the library raising on open; the
extractors' `try/except` blocks turn that into an empty result.
-/

/-- Opaque PDF/hash library capabilities.
`parseMeta`: the `docinfo` items seen by `PdfMetadataExtractor` (already
stringified).  `parseText`: the per-page results of `page.extract_text()`
(`none` for a page models Python `None`, turned into `""` by the source).
`parseFields`: the `(obj.get("/T"), raw bag)` pairs seen by
`PdfFieldExtractor` when walking `/AcroForm` `/Fields` (an absent `/AcroForm`
is `some []`). -/
structure PdfLib where
  sha256hex : Bytes → String
  parseMeta : Bytes → Option (Dict String)
  parseText : Bytes → Option (List (Option String))
  parseFields : Bytes → Option (List (Option String × Dict String))

/-- `PdfMetadataExtractor.extract`: the docinfo mapping, `{}` on failure. -/
def PdfMetadataExtractor.extract (lib : PdfLib) (b : Bytes) : Dict String :=
  (lib.parseMeta b).getD []

/-- `PdfTextExtractor.extract`: concatenation of page texts (a `None` page
contributes `""`); `""` on failure. -/
def PdfTextExtractor.extract (lib : PdfLib) (b : Bytes) : String :=
  match lib.parseText b with
  | none => ""
  | some pages => String.join (pages.map (fun t => t.getD ""))

/-- `PdfFieldExtractor.extract`: for each form field with a truthy `/T` name,
store `{"raw": bag}` under that name (`fields[str(name)] = …`, so a repeated
name overwrites); `{}` on failure.  The record is modelled as the raw bag. -/
def PdfFieldExtractor.extract (lib : PdfLib) (b : Bytes) : Dict (Dict String) :=
  match lib.parseFields b with
  | none => []
  | some entries =>
    entries.foldl
      (fun acc e =>
        match e.1 with
        | some name => if name = "" then acc else Dict.setItem acc name e.2
        | none => acc)
      []

/-!  The diff layer (`FieldDiff`), and the application layer. -/

/-- Canonical order-independent form of a raw property bag, modelling
equality of `json.dumps(record, sort_keys=True)` strings for records
`{"raw": bag}`: sort the bag by key. -/
def canonFieldRecord (r : Dict String) : Dict String :=
  List.insertionSort (fun p q => p.1 ≤ q.1) r

/-- Result of `FieldDiff.diff`. -/
structure FieldDiffResult where
  added : List String
  removed : List String
  modified : Dict (Dict String × Dict String)
  deriving DecidableEq

/-- `FieldDiff.diff(old, new)`: `added = sorted(set(new) - set(old))`,
`removed = sorted(set(old) - set(new))`, and `modified[key] = (old, new)` for
common keys whose canonical serialization differs.  The source iterates
`set(old) & set(new)`; membership in `modified` is order-insensitive, and the
common keys are walked here in `old`'s insertion order. -/
def FieldDiff.diff (oldF newF : Dict (Dict String)) : FieldDiffResult :=
  { added := List.insertionSort (fun p q => p ≤ q)
      ((Dict.keys newF).filter (fun k => decide (k ∉ Dict.keys oldF)))
    removed := List.insertionSort (fun p q => p ≤ q)
      ((Dict.keys oldF).filter (fun k => decide (k ∉ Dict.keys newF)))
    modified :=
      (((Dict.keys oldF).filter (fun k => decide (k ∈ Dict.keys newF))).filter
        (fun k => decide (canonFieldRecord ((oldF.lookup k).getD []) ≠
          canonFieldRecord ((newF.lookup k).getD [])))).map
        (fun k => (k, ((oldF.lookup k).getD [], (newF.lookup k).getD []))) }

/-- The diff bundle stored under `"diff"` when a change is detected. -/
structure DiffBundle where
  text_diff : String
  field_diff : FieldDiffResult
  deriving DecidableEq

/-- The state dict built by `ChangeDetector.detect` (and persisted by the
orchestrator).  `diff = none` models the empty dict `{}`. -/
structure DocState where
  hash : String
  metadata : Dict String
  text : String
  fields : Dict (Dict String)
  reasons : List String
  diff : Option DiffBundle
  deriving DecidableEq

/-- `ChangeDetector.detect(prev_state, pdf_bytes)`.  `prev = none` models an
empty `prev_state` (cold start); `prev_state.get("metadata", {})`,
`.get("hash")`, `.get("text", "")`, `.get("fields", {})` become the
corresponding `Option` projections. -/
def ChangeDetector.detect (lib : PdfLib) (prev : Option DocState) (b : Bytes) :
    Bool × DocState :=
  ((decide (((prev.map DocState.metadata).getD []).lookup "/ModDate" ≠
      (PdfMetadataExtractor.extract lib b).lookup "/ModDate") ||
    decide (prev.map DocState.hash ≠ some (lib.sha256hex b))),
   { hash := lib.sha256hex b
     metadata := PdfMetadataExtractor.extract lib b
     text := PdfTextExtractor.extract lib b
     fields := PdfFieldExtractor.extract lib b
     reasons :=
       (if decide (((prev.map DocState.metadata).getD []).lookup "/ModDate" ≠
           (PdfMetadataExtractor.extract lib b).lookup "/ModDate")
        then ["ModDate change"] else []) ++
       (if decide (prev.map DocState.hash ≠ some (lib.sha256hex b))
        then ["hash change"] else [])
     diff :=
       if decide (((prev.map DocState.metadata).getD []).lookup "/ModDate" ≠
            (PdfMetadataExtractor.extract lib b).lookup "/ModDate") ||
          decide (prev.map DocState.hash ≠ some (lib.sha256hex b)) then
         some { text_diff := TextDiff.diff ((prev.map DocState.text).getD "")
                  (PdfTextExtractor.extract lib b)
                field_diff := FieldDiff.diff ((prev.map DocState.fields).getD [])
                  (PdfFieldExtractor.extract lib b) }
       else none })

/-- Write effects of one orchestrator run after the bytes are downloaded
(`MonitorOrchestrator.run`, lines 326–338): load the previous state, detect,
return early on "no change", otherwise save exactly one snapshot and then the
new state. -/
structure RunEffects where
  snapshotWrites : Nat
  stateWrites : Nat
  store : Option DocState
  deriving DecidableEq

/-- The detect-and-persist phase of `MonitorOrchestrator.run` on downloaded
bytes `b`, with `store` the current content of the state repository. -/
def MonitorOrchestrator.runPhase (lib : PdfLib) (store : Option DocState)
    (b : Bytes) : RunEffects :=
  if (ChangeDetector.detect lib store b).1 then
    { snapshotWrites := 1, stateWrites := 1,
      store := some (ChangeDetector.detect lib store b).2 }
  else { snapshotWrites := 0, stateWrites := 0, store := store }

/-!  The fetching layer. -/

/-- `Config.RETRIES`. -/
def Config.RETRIES : Nat := 3

/-- `Config.BACKOFF`. -/
def Config.BACKOFF : Nat := 2

/-- The retry loop of `HttpFetcher.fetch` over the remaining attempt numbers.
`oracle attempt` is the outcome of the GET (plus `raise_for_status`) on that
attempt.  `Except.ok (some t)` is a successful return, `Except.error e`
re-raises the final failure, and `Except.ok none` is the `return None` after
the loop.  The second component lists the `time.sleep` durations (seconds),
in order. -/
def HttpFetcher.fetchGo (oracle : Nat → Except String String) :
    List Nat → List Nat → Except String (Option String) × List Nat
  | [], sleeps => (Except.ok none, sleeps)
  | attempt :: rest, sleeps =>
    match oracle attempt with
    | Except.ok t => (Except.ok (some t), sleeps)
    | Except.error e =>
      if attempt = Config.RETRIES then (Except.error e, sleeps)
      else HttpFetcher.fetchGo oracle rest (sleeps ++ [Config.BACKOFF ^ attempt])

/-- `HttpFetcher.fetch`: `for attempt in range(1, Config.RETRIES + 1)`. -/
def HttpFetcher.fetch (oracle : Nat → Except String String) :
    Except String (Option String) × List Nat :=
  HttpFetcher.fetchGo oracle (List.range' 1 Config.RETRIES) []

/-!  `PdfLocator._extract_pdf_from_html`. -/

/-- Substring test on character lists (Python `pat in s`). -/
def hasSubstr : List Char → List Char → Bool
  | l, pat =>
    pat.isPrefixOf l ||
      match l with
      | [] => false
      | _ :: t => hasSubstr t pat

/-- Python `str.endswith`. -/
def strEndsWith (s suffix : String) : Bool := suffix.data.isSuffixOf s.data

/-- Loose anchor test of the fallback scan: `".pdf" in href.lower()`. -/
def loosePdfHref (h : String) : Bool := hasSubstr h.toLower.data ".pdf".data

/-- `PdfLocator._extract_pdf_from_html(html, base_url)`.  The document's
anchors that carry an `href` are modelled as the list of those `href` values
in document order (both `soup.select_one` and `soup.find_all` scan in
document order); `uj` is `urllib.parse.urljoin`, kept opaque.  The direct
selector `a[href$=".pdf"]` is tried first; only if it matches nothing is the
case-insensitive containment scan used. -/
def PdfLocator.extractPdfFromHtml (uj : String → String → String)
    (anchors : List String) (base : String) : Option String :=
  match anchors.find? (fun h => strEndsWith h ".pdf") with
  | some h => some (uj base h)
  | none =>
    match anchors.find? (fun h => loosePdfHref h) with
    | some h => some (uj base h)
    | none => none

/-!  The action handler pipeline (`pipelines/`). -/

/-- One registered handler (`ActionHandler` subclass): the registry order is
the subclass definition order.  `handle`'s driver side effects are modelled
as a state transformer. -/
structure ActionHandler (A D : Type) where
  canHandle : A → Bool
  handle : A → D → D

/-- `HandlerPipeline.execute(actions, driver)`: for each action in order, the
first handler (in registry order) whose `can_handle` accepts it runs; if none
does, a `ValueError` naming that action is raised (modelled as
`Except.error action`), abandoning the remaining actions. -/
def HandlerPipeline.execute {A D : Type} (hs : List (ActionHandler A D)) :
    List A → D → Except A D
  | [], d => Except.ok d
  | a :: rest, d =>
    match hs.find? (fun h => h.canHandle a) with
    | some h => HandlerPipeline.execute hs rest (h.handle a d)
    | none => Except.error a

/-!  Concrete library instances used in witnesses and counterexamples. -/

/-- The libraries' behaviour on a buffer they cannot open (for example the
empty buffer, which is not a PDF): `pikepdf.open` and `pdfplumber.open`
raise, while `hashlib.sha256` still hashes (the constant below is the SHA-256
hex digest of the empty byte string). -/
def failingPdfLib : PdfLib where
  sha256hex := fun _ =>
    "e3b0c44298fc1c149afbf4c8996fb92427ae41e4649b934ca495991b7852b855"
  parseMeta := fun _ => none
  parseText := fun _ => none
  parseFields := fun _ => none

/-- A library behaviour realising the spec's scenario: the fetched document
hashes to `"h2"`, has `/ModDate = "D2"`, and has form fields `name`, `ssn`. -/
def scenarioLib : PdfLib where
  sha256hex := fun _ => "h2"
  parseMeta := fun _ => some [("/ModDate", "D2")]
  parseText := fun _ => some []
  parseFields := fun _ =>
    some [(some "name", [("/FT", "/Tx")]), (some "ssn", [("/FT", "/Tx")])]

/-- The spec scenario's prior state: hash `"h1"`, `/ModDate = "D1"`, one
field `name`. -/
def scenarioPrev : DocState where
  hash := "h1"
  metadata := [("/ModDate", "D1")]
  text := ""
  fields := [("name", [("/FT", "/Tx")])]
  reasons := []
  diff := none

/-- Detecting over a state just produced from the same bytes reports no
change: both signals compare equal values. -/
lemma detect_self_unchanged (lib : PdfLib) (prev : Option DocState) (b : Bytes) :
    (ChangeDetector.detect lib (some (ChangeDetector.detect lib prev b).2) b).1 =
      false := by
  simp [ChangeDetector.detect]

/-- On a cold start the hash signal always fires (`None != new_hash`). -/
lemma detect_cold_changed (lib : PdfLib) (b : Bytes) :
    (ChangeDetector.detect lib none b).1 = true := by
  simp [ChangeDetector.detect]

/-- A second run over the bytes just persisted performs no writes and leaves
the stored state unchanged. -/
lemma runPhase_second (lib : PdfLib) (prev : Option DocState) (b : Bytes) :
    MonitorOrchestrator.runPhase lib (MonitorOrchestrator.runPhase lib prev b).store b =
      { snapshotWrites := 0, stateWrites := 0,
        store := (MonitorOrchestrator.runPhase lib prev b).store } := by
  by_cases hc : (ChangeDetector.detect lib prev b).1
  · simp [MonitorOrchestrator.runPhase, hc, detect_self_unchanged]
  · simp [MonitorOrchestrator.runPhase, hc]

/-- C5: the diff bundle is computed if and only if `changed` is true: it is
exactly the text diff against the previous text paired with the field diff
against the previous fields when `changed`, and empty (`{}`) otherwise. -/
theorem detect_diff_iff_changed (lib : PdfLib) (prev : Option DocState) (b : Bytes) :
    (ChangeDetector.detect lib prev b).2.diff =
      (if (ChangeDetector.detect lib prev b).1 then
        some { text_diff := TextDiff.diff ((prev.map DocState.text).getD "")
                 (PdfTextExtractor.extract lib b)
               field_diff := FieldDiff.diff ((prev.map DocState.fields).getD [])
                 (PdfFieldExtractor.extract lib b) }
      else none) := rfl

/-- C3: idempotence on no change.  Re-detecting over the state produced from
the same bytes yields `changed = false`; hence a second orchestrator run over
the same bytes writes no snapshot and no state and leaves the persisted state
identical, and a cold-started pair of runs performs exactly one snapshot
write and one state write in total. -/
theorem detect_idempotent_second_run_writes_nothing (lib : PdfLib)
    (prev : Option DocState) (b : Bytes) :
    (ChangeDetector.detect lib (some (ChangeDetector.detect lib prev b).2) b).1 =
      false ∧
    (MonitorOrchestrator.runPhase lib
      (MonitorOrchestrator.runPhase lib prev b).store b).snapshotWrites = 0 ∧
    (MonitorOrchestrator.runPhase lib
      (MonitorOrchestrator.runPhase lib prev b).store b).stateWrites = 0 ∧
    (MonitorOrchestrator.runPhase lib
        (MonitorOrchestrator.runPhase lib prev b).store b).store =
      (MonitorOrchestrator.runPhase lib prev b).store ∧
    (MonitorOrchestrator.runPhase lib none b).snapshotWrites +
      (MonitorOrchestrator.runPhase lib
        (MonitorOrchestrator.runPhase lib none b).store b).snapshotWrites = 1 ∧
    (MonitorOrchestrator.runPhase lib none b).stateWrites +
      (MonitorOrchestrator.runPhase lib
        (MonitorOrchestrator.runPhase lib none b).store b).stateWrites = 1 := by
  refine ⟨detect_self_unchanged lib prev b, ?_, ?_, ?_, ?_, ?_⟩
  · rw [runPhase_second]
  · rw [runPhase_second]
  · rw [runPhase_second]
  · rw [runPhase_second]
    simp [MonitorOrchestrator.runPhase, detect_cold_changed]
  · rw [runPhase_second]
    simp [MonitorOrchestrator.runPhase, detect_cold_changed]

/-- C2: the two signals are evaluated independently and accumulate in order.
`changed` is the disjunction of the `/ModDate` mismatch and the hash
mismatch; `reasons` contains `"ModDate change"` exactly on a `/ModDate`
mismatch and `"hash change"` exactly on a hash mismatch, with the ModDate
reason first; and the spec's scenario (`h1`/`D1` versus `h2`/`D2`, fields
gaining `ssn`) yields `changed = true`,
`reasons = ["ModDate change", "hash change"]`, `field_diff.added = ["ssn"]`. -/
theorem detect_signals_independent (lib : PdfLib) (prev : Option DocState)
    (b : Bytes) :
    ((ChangeDetector.detect lib prev b).1 = true ↔
      (((prev.map DocState.metadata).getD []).lookup "/ModDate" ≠
          (PdfMetadataExtractor.extract lib b).lookup "/ModDate" ∨
        prev.map DocState.hash ≠ some (lib.sha256hex b))) ∧
    ("ModDate change" ∈ (ChangeDetector.detect lib prev b).2.reasons ↔
      ((prev.map DocState.metadata).getD []).lookup "/ModDate" ≠
        (PdfMetadataExtractor.extract lib b).lookup "/ModDate") ∧
    ("hash change" ∈ (ChangeDetector.detect lib prev b).2.reasons ↔
      prev.map DocState.hash ≠ some (lib.sha256hex b)) ∧
    (ChangeDetector.detect lib prev b).2.reasons =
      (if ((prev.map DocState.metadata).getD []).lookup "/ModDate" ≠
          (PdfMetadataExtractor.extract lib b).lookup "/ModDate"
       then ["ModDate change"] else []) ++
      (if prev.map DocState.hash ≠ some (lib.sha256hex b)
       then ["hash change"] else []) ∧
    (ChangeDetector.detect scenarioLib (some scenarioPrev) []).1 = true ∧
    (ChangeDetector.detect scenarioLib (some scenarioPrev) []).2.reasons =
      ["ModDate change", "hash change"] ∧
    ((ChangeDetector.detect scenarioLib (some scenarioPrev) []).2.diff.map
      (fun d => d.field_diff.added)) = some ["ssn"] := by
  refine ⟨?_, ?_, ?_, ?_, ?_, ?_, ?_⟩
  · by_cases h1 : ((prev.map DocState.metadata).getD []).lookup "/ModDate" ≠
        (PdfMetadataExtractor.extract lib b).lookup "/ModDate" <;>
      by_cases h2 : prev.map DocState.hash ≠ some (lib.sha256hex b) <;>
      simp [ChangeDetector.detect, h1, h2]
  · by_cases h1 : ((prev.map DocState.metadata).getD []).lookup "/ModDate" ≠
        (PdfMetadataExtractor.extract lib b).lookup "/ModDate" <;>
      by_cases h2 : prev.map DocState.hash ≠ some (lib.sha256hex b) <;>
      simp [ChangeDetector.detect, h1, h2]
  · by_cases h1 : ((prev.map DocState.metadata).getD []).lookup "/ModDate" ≠
        (PdfMetadataExtractor.extract lib b).lookup "/ModDate" <;>
      by_cases h2 : prev.map DocState.hash ≠ some (lib.sha256hex b) <;>
      simp [ChangeDetector.detect, h1, h2]
  · by_cases h1 : ((prev.map DocState.metadata).getD []).lookup "/ModDate" ≠
        (PdfMetadataExtractor.extract lib b).lookup "/ModDate" <;>
      by_cases h2 : prev.map DocState.hash ≠ some (lib.sha256hex b) <;>
      simp [ChangeDetector.detect, h1, h2]
  · rfl
  · rfl
  · rfl

/-- C1 counterexample: on a cold start over a buffer the PDF library cannot
parse (such as the empty buffer), metadata extraction degrades to `{}`, so
`prev.get("metadata", {}).get("/ModDate")` and `metadata.get("/ModDate")` are
both `None`, the comparison does not mismatch, and the `"ModDate change"`
reason is absent: `reasons` is `["hash change"]` only, refuting "reasons
contains both" for every byte buffer. -/
theorem detect_cold_start_counterexample :
    (ChangeDetector.detect failingPdfLib none []).1 = true ∧
    (ChangeDetector.detect failingPdfLib none []).2.reasons = ["hash change"] ∧
    ((ChangeDetector.detect failingPdfLib none []).2.reasons.contains
      "ModDate change") = false := by
  refine ⟨rfl, rfl, rfl⟩

/-- C1 amended: on a cold start (`prev_state` empty) `detect` always returns
`changed = true` and `reasons` always contains `"hash change"`; it contains
`"ModDate change"` exactly when the newly extracted metadata carries a
`/ModDate` entry (in particular, both reasons are present whenever metadata
extraction succeeds with a `/ModDate`). -/
theorem detect_cold_start_amended (lib : PdfLib) (b : Bytes) :
    (ChangeDetector.detect lib none b).1 = true ∧
    "hash change" ∈ (ChangeDetector.detect lib none b).2.reasons ∧
    ("ModDate change" ∈ (ChangeDetector.detect lib none b).2.reasons ↔
      ((PdfMetadataExtractor.extract lib b).lookup "/ModDate").isSome = true) := by
  rcases hml : (PdfMetadataExtractor.extract lib b).lookup "/ModDate" with _ | v <;>
    simp [ChangeDetector.detect, hml]

/-- C1 witness: a cold start over the spec scenario's library, whose
metadata does expose `/ModDate`, reports both reasons. -/
theorem detect_cold_start_amended_witness :
    ((PdfMetadataExtractor.extract scenarioLib []).lookup "/ModDate").isSome = true ∧
    "ModDate change" ∈ (ChangeDetector.detect scenarioLib none []).2.reasons := by
  exact ⟨rfl, ((detect_cold_start_amended scenarioLib []).2.2).mpr rfl⟩

/-- Looking a key up in the graph of a function over a key list. -/
lemma lookup_graph {β : Type} (f : String → β) :
    ∀ (l : List String) (k : String),
      (l.map (fun x => (x, f x))).lookup k = if k ∈ l then some (f k) else none := by
  intro l
  induction l with
  | nil => intro k; simp
  | cons a t ih =>
    intro k
    by_cases hk : k = a
    · subst hk
      simp [List.lookup]
    · have hba : (k == a) = false := by simp [hk]
      simp [List.lookup, hba, ih k, hk]

/-- C4: `FieldDiff.diff` is correct: `added` is the lexicographically sorted
list of keys of `new` absent from `old`, `removed` the sorted list of keys of
`old` absent from `new`, and `modified` maps exactly the common keys whose
canonical order-independent serialization differs to their old and new
records; `{A, B} → {B, C}` with `B` unchanged gives `added = [C]`,
`removed = [A]`, `modified = {}`. -/
theorem fieldDiff_diff_correct (oldF newF : Dict (Dict String)) :
    List.Sorted (· ≤ ·) (FieldDiff.diff oldF newF).added ∧
    List.Sorted (· ≤ ·) (FieldDiff.diff oldF newF).removed ∧
    (∀ k, k ∈ (FieldDiff.diff oldF newF).added ↔
      k ∈ Dict.keys newF ∧ k ∉ Dict.keys oldF) ∧
    (∀ k, k ∈ (FieldDiff.diff oldF newF).removed ↔
      k ∈ Dict.keys oldF ∧ k ∉ Dict.keys newF) ∧
    (∀ k, (FieldDiff.diff oldF newF).modified.lookup k =
      if k ∈ Dict.keys oldF ∧ k ∈ Dict.keys newF ∧
          canonFieldRecord ((oldF.lookup k).getD []) ≠
            canonFieldRecord ((newF.lookup k).getD [])
      then some ((oldF.lookup k).getD [], (newF.lookup k).getD [])
      else none) ∧
    FieldDiff.diff [("A", [("/V", "1")]), ("B", [("/V", "2")])]
        [("B", [("/V", "2")]), ("C", [("/V", "3")])] =
      { added := ["C"], removed := ["A"], modified := [] } := by
  refine ⟨?_, ?_, ?_, ?_, ?_, by decide⟩
  · show List.Sorted (· ≤ ·) (List.insertionSort (fun p q => p ≤ q)
      ((Dict.keys newF).filter (fun k => decide (k ∉ Dict.keys oldF))))
    exact List.sorted_insertionSort _ _
  · show List.Sorted (· ≤ ·) (List.insertionSort (fun p q => p ≤ q)
      ((Dict.keys oldF).filter (fun k => decide (k ∉ Dict.keys newF))))
    exact List.sorted_insertionSort _ _
  · intro k
    show k ∈ List.insertionSort (fun p q => p ≤ q)
        ((Dict.keys newF).filter (fun k => decide (k ∉ Dict.keys oldF))) ↔ _
    rw [List.mem_insertionSort]
    simp [List.mem_filter]
  · intro k
    show k ∈ List.insertionSort (fun p q => p ≤ q)
        ((Dict.keys oldF).filter (fun k => decide (k ∉ Dict.keys newF))) ↔ _
    rw [List.mem_insertionSort]
    simp [List.mem_filter]
  · intro k
    have hmem : (k ∈ ((Dict.keys oldF).filter
          (fun k => decide (k ∈ Dict.keys newF))).filter
        (fun k => decide (canonFieldRecord ((oldF.lookup k).getD []) ≠
          canonFieldRecord ((newF.lookup k).getD [])))) ↔
        (k ∈ Dict.keys oldF ∧ k ∈ Dict.keys newF ∧
          canonFieldRecord ((oldF.lookup k).getD []) ≠
            canonFieldRecord ((newF.lookup k).getD [])) := by
      simp only [List.mem_filter, decide_eq_true_eq]
      tauto
    show ((((Dict.keys oldF).filter (fun k => decide (k ∈ Dict.keys newF))).filter
        (fun k => decide (canonFieldRecord ((oldF.lookup k).getD []) ≠
          canonFieldRecord ((newF.lookup k).getD [])))).map
        (fun k => (k, ((oldF.lookup k).getD [], (newF.lookup k).getD [])))).lookup k = _
    rw [lookup_graph]
    simp only [hmem]

/-- Case analysis of the retry loop for `RETRIES = 3`: at most three attempts
are consulted, a success returns immediately, the sleeps are
`BACKOFF ^ 1, BACKOFF ^ 2` between failed attempts, and the third failure is
re-raised. -/
lemma fetch_cases (o : Nat → Except String String) :
    HttpFetcher.fetch o =
      (match o 1 with
      | Except.ok t => (Except.ok (some t), [])
      | Except.error _ =>
        match o 2 with
        | Except.ok t => (Except.ok (some t), [Config.BACKOFF ^ 1])
        | Except.error _ =>
          match o 3 with
          | Except.ok t =>
            (Except.ok (some t), [Config.BACKOFF ^ 1, Config.BACKOFF ^ 2])
          | Except.error e =>
            (Except.error e, [Config.BACKOFF ^ 1, Config.BACKOFF ^ 2])) := by
  rcases h1 : o 1 with e1 | t1 <;> rcases h2 : o 2 with e2 | t2 <;>
    rcases h3 : o 3 with e3 | t3 <;>
    simp [HttpFetcher.fetch, HttpFetcher.fetchGo, Config.RETRIES, List.range',
      h1, h2, h3]

/-- C6: retry discipline of `HttpFetcher.fetch`.  The sleep sequence is
exactly `BACKOFF ^ attempt` for the attempts that failed and were retried;
there are at most `RETRIES` attempts (at most `RETRIES - 1` sleeps, and the
result depends only on the outcomes of attempts `1..RETRIES`, so the loop is
bounded); if every attempt fails, the final attempt's error is propagated to
the caller; and the loop never falls through to `return None`. -/
theorem httpFetcher_retry_discipline (oracle : Nat → Except String String) :
    (HttpFetcher.fetch oracle).2 =
      (List.range' 1 (HttpFetcher.fetch oracle).2.length).map
        (fun a => Config.BACKOFF ^ a) ∧
    (HttpFetcher.fetch oracle).2.length + 1 ≤ Config.RETRIES ∧
    ((∀ a, 1 ≤ a → a ≤ Config.RETRIES → ∃ e, oracle a = Except.error e) →
      ∃ e, oracle Config.RETRIES = Except.error e ∧
        (HttpFetcher.fetch oracle).1 = Except.error e ∧
        (HttpFetcher.fetch oracle).2.length = Config.RETRIES - 1) ∧
    (∀ oracle2, (∀ a, 1 ≤ a → a ≤ Config.RETRIES → oracle a = oracle2 a) →
      HttpFetcher.fetch oracle = HttpFetcher.fetch oracle2) ∧
    (∀ s, (HttpFetcher.fetch oracle).1 = Except.ok s → ∃ t, s = some t) := by
  have hcong : ∀ oracle2,
      (∀ a, 1 ≤ a → a ≤ Config.RETRIES → oracle a = oracle2 a) →
      HttpFetcher.fetch oracle = HttpFetcher.fetch oracle2 := by
    intro o2 ho
    have g1 := ho 1 (by decide) (by decide)
    have g2 := ho 2 (by decide) (by decide)
    have g3 := ho 3 (by decide) (by decide)
    rw [fetch_cases oracle, fetch_cases o2, ← g1, ← g2, ← g3]
  refine ⟨?_, ?_, ?_, hcong, ?_⟩
  · rcases h1 : oracle 1 with e1 | t1 <;> rcases h2 : oracle 2 with e2 | t2 <;>
      rcases h3 : oracle 3 with e3 | t3 <;>
      simp [fetch_cases oracle, h1, h2, h3, List.range']
  · rcases h1 : oracle 1 with e1 | t1 <;> rcases h2 : oracle 2 with e2 | t2 <;>
      rcases h3 : oracle 3 with e3 | t3 <;>
      simp [fetch_cases oracle, h1, h2, h3, Config.RETRIES]
  · intro hall
    rcases hall 1 (by decide) (by decide) with ⟨f1, hf1⟩
    rcases hall 2 (by decide) (by decide) with ⟨f2, hf2⟩
    rcases hall 3 (by decide) (by decide) with ⟨f3, hf3⟩
    refine ⟨f3, hf3, ?_, ?_⟩ <;>
      simp [fetch_cases oracle, hf1, hf2, hf3, Config.RETRIES]
  · intro s hs
    rcases h1 : oracle 1 with e1 | t1 <;> rcases h2 : oracle 2 with e2 | t2 <;>
      rcases h3 : oracle 3 with e3 | t3 <;>
      rw [fetch_cases oracle] at hs <;> simp [h1, h2, h3] at hs <;>
      exact ⟨_, hs.symm⟩

/-- C6 witness: an oracle that always fails; every attempt in `1..RETRIES`
fails, and fetch propagates the final error after two sleeps. -/
theorem httpFetcher_retry_discipline_witness :
    (∀ a, 1 ≤ a → a ≤ Config.RETRIES →
      ∃ e, (fun _ => (Except.error "boom" : Except String String)) a =
        Except.error e) ∧
    ∃ e, (fun _ => (Except.error "boom" : Except String String))
        Config.RETRIES = Except.error e ∧
      (HttpFetcher.fetch (fun _ => Except.error "boom")).1 = Except.error e ∧
      (HttpFetcher.fetch (fun _ => Except.error "boom")).2.length =
        Config.RETRIES - 1 :=
  ⟨fun _ _ _ => ⟨"boom", rfl⟩,
    (httpFetcher_retry_discipline (fun _ => Except.error "boom")).2.2.1
      (fun _ _ _ => ⟨"boom", rfl⟩)⟩

/-- C7: each extractor is a total function (a Lean function over arbitrary
byte input) that absorbs parse failure: when the library cannot open the
buffer, metadata extraction returns the empty mapping, text extraction the
empty string, and field extraction the empty mapping. -/
theorem extractors_total_degrade (lib : PdfLib) (b : Bytes) :
    (lib.parseMeta b = none → PdfMetadataExtractor.extract lib b = []) ∧
    (lib.parseText b = none → PdfTextExtractor.extract lib b = "") ∧
    (lib.parseFields b = none → PdfFieldExtractor.extract lib b = []) := by
  refine ⟨fun h => ?_, fun h => ?_, fun h => ?_⟩ <;>
    simp [PdfMetadataExtractor.extract, PdfTextExtractor.extract,
      PdfFieldExtractor.extract, h]

/-- C7 witness: the failing library on the empty buffer degrades each
extractor to its empty result. -/
theorem extractors_total_degrade_witness :
    failingPdfLib.parseMeta [] = none ∧
    PdfMetadataExtractor.extract failingPdfLib [] = [] ∧
    PdfTextExtractor.extract failingPdfLib [] = "" ∧
    PdfFieldExtractor.extract failingPdfLib [] = [] :=
  ⟨rfl, (extractors_total_degrade failingPdfLib []).1 rfl,
    (extractors_total_degrade failingPdfLib []).2.1 rfl,
    (extractors_total_degrade failingPdfLib []).2.2 rfl⟩


/-- `List.find?` returns the first element satisfying the predicate: if
position `n` holds a satisfying element and every earlier position does not,
`find?` returns it. -/
lemma find?_first_at {α : Type} (p : α → Bool) :
    ∀ (l : List α) (n : Nat) (x : α), l[n]? = some x → p x = true →
      (∀ (m : Nat), m < n → ∀ (y : α), l[m]? = some y → p y = false) →
      l.find? p = some x := by
  intro l
  induction l with
  | nil => intro n x hx; simp at hx
  | cons a t ih =>
    intro n x hx hp hfirst
    cases n with
    | zero =>
      simp only [List.getElem?_cons_zero, Option.some_inj] at hx
      subst hx
      simp [List.find?, hp]
    | succ n =>
      have ha : p a = false := hfirst 0 (by omega) a (by simp)
      simp only [List.getElem?_cons_succ] at hx
      simp only [List.find?, ha]
      exact ih n x hx hp
        (fun m hm y hy => hfirst (m + 1) (by omega) y (by simpa using hy))

/-- `List.find?` misses exactly when no element satisfies the predicate. -/
lemma find?_none_of_all {α : Type} (p : α → Bool) (l : List α)
    (h : ∀ y ∈ l, p y = false) : l.find? p = none := by
  induction l with
  | nil => rfl
  | cons a t ih =>
    simp only [List.find?, h a (by simp)]
    exact ih (fun y hy => h y (by simp [hy]))

/-- C8: locator heuristic precedence.  If position `n` holds the first anchor
whose href ends in `".pdf"`, the direct selector returns that anchor resolved
against the base URL, regardless of any loosely matching anchor before or
after it; only when no anchor ends in `".pdf"` does the fallback
case-insensitive containment scan decide the result; and on the concrete page
`["x.PDF?download", "y.pdf"]` the exact-suffix anchor wins even though the
loose anchor comes first. -/
theorem pdfLocator_precedence (uj : String → String → String)
    (anchors : List String) (base : String) :
    (∀ (n : Nat) (h0 : String), anchors[n]? = some h0 →
      strEndsWith h0 ".pdf" = true →
      (∀ (m : Nat), m < n → ∀ (hm : String), anchors[m]? = some hm →
        strEndsWith hm ".pdf" = false) →
      PdfLocator.extractPdfFromHtml uj anchors base = some (uj base h0)) ∧
    ((∀ h ∈ anchors, strEndsWith h ".pdf" = false) →
      PdfLocator.extractPdfFromHtml uj anchors base =
        (anchors.find? (fun h => loosePdfHref h)).map (uj base)) ∧
    PdfLocator.extractPdfFromHtml uj ["x.PDF?download", "y.pdf"] base =
      some (uj base "y.pdf") := by
  refine ⟨?_, ?_, ?_⟩
  · intro n h0 hn hp hfirst
    have hf : anchors.find? (fun h => strEndsWith h ".pdf") = some h0 :=
      find?_first_at _ anchors n h0 hn hp hfirst
    simp [PdfLocator.extractPdfFromHtml, hf]
  · intro hall
    have hf : anchors.find? (fun h => strEndsWith h ".pdf") = none :=
      find?_none_of_all _ anchors hall
    simp only [PdfLocator.extractPdfFromHtml, hf]
    rcases hl : anchors.find? (fun h => loosePdfHref h) with _ | h <;> simp
  · have hf : (["x.PDF?download", "y.pdf"] : List String).find?
        (fun h => strEndsWith h ".pdf") = some "y.pdf" := by decide
    simp [PdfLocator.extractPdfFromHtml, hf]

/-- C8 witness: the concrete two-anchor page, with `urljoin` instantiated to
string append; the hypotheses of the first-match part are discharged at
`n = 1`. -/
theorem pdfLocator_precedence_witness :
    (["x.PDF?download", "y.pdf"] : List String)[1]? = some "y.pdf" ∧
    strEndsWith "y.pdf" ".pdf" = true ∧
    PdfLocator.extractPdfFromHtml (fun b h => b ++ h)
      ["x.PDF?download", "y.pdf"] "https://e.gov/" =
      some ("https://e.gov/" ++ "y.pdf") :=
  ⟨by decide, by decide,
    (pdfLocator_precedence (fun b h => b ++ h) ["x.PDF?download", "y.pdf"]
      "https://e.gov/").1 1 "y.pdf" (by decide) (by decide)
      (fun m hm y hy => by
        cases m with
        | zero =>
          simp only [List.getElem?_cons_zero, Option.some_inj] at hy
          subst hy
          decide
        | succ m => omega)⟩

/-- C10: the handler pipeline processes actions in order, dispatching each
action to the first registered handler whose `can_handle` accepts it; the
first action no handler accepts raises `ValueError` (modelled as
`Except.error` carrying that action), and the actions after it are never
processed (the result does not depend on them). -/
theorem handlerPipeline_dispatch {A D : Type} (hs : List (ActionHandler A D)) :
    (∀ (a : A) (rest : List A) (d : D) (h : ActionHandler A D),
      hs.find? (fun g => g.canHandle a) = some h →
      HandlerPipeline.execute hs (a :: rest) d =
        HandlerPipeline.execute hs rest (h.handle a d)) ∧
    (∀ (h : ActionHandler A D) (a : A),
      hs.find? (fun g => g.canHandle a) = some h →
      ∃ (i : Nat), hs[i]? = some h ∧ h.canHandle a = true ∧
        ∀ (m : Nat), m < i → ∀ (h2 : ActionHandler A D), hs[m]? = some h2 →
          h2.canHandle a = false) ∧
    (∀ (pre : List A) (a : A) (post : List A) (d : D),
      (∀ x ∈ pre, (hs.find? (fun g => g.canHandle x)).isSome = true) →
      hs.find? (fun g => g.canHandle a) = none →
      HandlerPipeline.execute hs (pre ++ a :: post) d = Except.error a) := by
  refine ⟨?_, ?_, ?_⟩
  · intro a rest d h hfind
    simp [HandlerPipeline.execute, hfind]
  · intro h a hfind
    induction hs with
    | nil => simp at hfind
    | cons g t ih =>
      by_cases hg : g.canHandle a = true
      · simp only [List.find?, hg, Option.some_inj] at hfind
        subst hfind
        exact ⟨0, by simp, hg, fun m hm h2 hh2 => absurd hm (by omega)⟩
      · have hg' : g.canHandle a = false := by
          cases hcg : g.canHandle a
          · rfl
          · exact absurd hcg hg
        simp only [List.find?, hg'] at hfind
        rcases ih hfind with ⟨i, hi, hpa, hfirst⟩
        refine ⟨i + 1, by simpa using hi, hpa, ?_⟩
        intro m hm h2 hh2
        cases m with
        | zero =>
          simp only [List.getElem?_cons_zero, Option.some_inj] at hh2
          subst hh2
          exact hg'
        | succ m =>
          simp only [List.getElem?_cons_succ] at hh2
          exact hfirst m (by omega) h2 hh2
  · intro pre a post d hpre hnone
    induction pre generalizing d with
    | nil => simp [HandlerPipeline.execute, hnone]
    | cons x xs ih =>
      have hx := hpre x (by simp)
      rcases hfx : hs.find? (fun g => g.canHandle x) with _ | h
      · rw [hfx] at hx; simp at hx
      · simp only [List.cons_append, HandlerPipeline.execute, hfx]
        exact ih (h.handle x d) (fun y hy => hpre y (by simp [hy]))

/-- C10 witness: two handlers over string actions and a list-logging driver;
the known actions are each handleable, and an unknown action aborts the
pipeline with an error naming it, leaving later actions unprocessed. -/
theorem handlerPipeline_dispatch_witness :
    (([⟨fun a => a == "cl", fun a d => d ++ [a]⟩,
      ⟨fun a => a == "go", fun a d => d ++ [a, a]⟩] :
        List (ActionHandler String (List String))).find?
      (fun g => g.canHandle "??")) = none ∧
    (∀ x ∈ (["cl", "go"] : List String),
      (([⟨fun a => a == "cl", fun a d => d ++ [a]⟩,
        ⟨fun a => a == "go", fun a d => d ++ [a, a]⟩] :
          List (ActionHandler String (List String))).find?
        (fun g => g.canHandle x)).isSome = true) ∧
    HandlerPipeline.execute
      ([⟨fun a => a == "cl", fun a d => d ++ [a]⟩,
        ⟨fun a => a == "go", fun a d => d ++ [a, a]⟩] :
          List (ActionHandler String (List String)))
      (["cl", "go"] ++ "??" :: ["cl"]) [] = Except.error "??" := by
  refine ⟨rfl, by decide, ?_⟩
  exact (handlerPipeline_dispatch
      ([⟨fun a => a == "cl", fun a d => d ++ [a]⟩,
        ⟨fun a => a == "go", fun a d => d ++ [a, a]⟩] :
          List (ActionHandler String (List String)))).2.2
    ["cl", "go"] "??" ["cl"] [] (by decide) rfl

/-- With an empty `a`-window, `find_longest_match` finds nothing. -/
lemma flm_zero_a (a b : List String) (blo bhi : Nat) :
    findLongestMatch a b 0 0 blo bhi = (0, blo, 0) := by
  have h1 : flmExtendLeft a b 0 blo 0 blo 0 = (0, blo, 0) := by
    unfold flmExtendLeft
    exact dif_neg (fun hc => absurd hc.1 (by omega))
  have h2 : flmExtendRight a b 0 bhi 0 blo 0 = 0 := by
    unfold flmExtendRight
    exact dif_neg (fun hc => absurd hc.1 (by omega))
  unfold findLongestMatch flmCore
  simp [List.range', flmRowsGo, h1, h2]

/-- With `b` empty, every candidate list is empty, so the best block stays at
its initial value through all rows. -/
lemma flmRowsGo_b_nil (a : List String) :
    ∀ (rows : List Nat) (st : (Nat → Nat) × (Nat × Nat × Nat)),
      (flmRowsGo a [] 0 0 rows st).2 = st.2 := by
  intro rows
  induction rows with
  | nil => intro st; rfl
  | cons i rows ih =>
    intro st
    have hb : b2jIdx [] (a.getD i "") = [] := by simp [b2jIdx]
    simp only [flmRowsGo, hb, List.filter_nil, flmRowGo]
    exact ih _

/-- With `b` empty, `find_longest_match` finds nothing. -/
lemma flm_b_nil (a : List String) (alo ahi : Nat) :
    findLongestMatch a [] alo ahi 0 0 = (alo, 0, 0) := by
  have hr := flmRowsGo_b_nil a (List.range' alo (ahi - alo))
    ((fun _ => 0), (alo, 0, 0))
  have h1 : flmExtendLeft a [] alo 0 alo 0 0 = (alo, 0, 0) := by
    unfold flmExtendLeft
    exact dif_neg (fun hc => absurd hc.2.1 (by omega))
  have h2 : flmExtendRight a [] ahi 0 alo 0 0 = 0 := by
    unfold flmExtendRight
    exact dif_neg (fun hc => absurd hc.2.1 (by omega))
  unfold findLongestMatch flmCore
  simp only [hr]
  simp [h1, h2]

/-- When the longest match is empty, the block recursion yields no blocks. -/
lemma matchingBlocksRec_of_k_zero (a b : List String) (alo ahi blo bhi : Nat)
    (h : (findLongestMatch a b alo ahi blo bhi).2.2 = 0) :
    matchingBlocksRec a b alo ahi blo bhi = [] := by
  unfold matchingBlocksRec
  rw [dif_pos h]

/-- Matching blocks of `([], b)`: only the sentinel. -/
lemma getMatchingBlocks_nil_a (b : List String) :
    getMatchingBlocks [] b = [(0, b.length, 0)] := by
  unfold getMatchingBlocks
  rw [matchingBlocksRec_of_k_zero]
  · simp [mergeAdjacentBlocks]
  · rw [show ([] : List String).length = 0 from rfl, flm_zero_a]

/-- Matching blocks of `(a, [])`: only the sentinel. -/
lemma getMatchingBlocks_nil_b (a : List String) :
    getMatchingBlocks a [] = [(a.length, 0, 0)] := by
  unfold getMatchingBlocks
  rw [matchingBlocksRec_of_k_zero]
  · simp [mergeAdjacentBlocks]
  · rw [show ([] : List String).length = 0 from rfl, flm_b_nil]

/-- Opcodes of `([], b)`: one `insert` covering all of `b`, if any. -/
lemma getOpcodes_nil_a (b : List String) :
    getOpcodes [] b =
      if 0 < b.length then [("insert", 0, 0, 0, b.length)] else [] := by
  unfold getOpcodes
  rw [getMatchingBlocks_nil_a]
  by_cases hb : 0 < b.length
  · rw [if_pos hb]
    simp [opcodesLoop, hb]
  · rw [if_neg hb]
    simp [opcodesLoop, hb]

/-- Opcodes of `(a, [])`: one `delete` covering all of `a`, if any. -/
lemma getOpcodes_nil_b (a : List String) :
    getOpcodes a [] =
      if 0 < a.length then [("delete", 0, a.length, 0, 0)] else [] := by
  unfold getOpcodes
  rw [getMatchingBlocks_nil_b]
  by_cases ha : 0 < a.length
  · rw [if_pos ha]
    simp [opcodesLoop, ha]
  · rw [if_neg ha]
    simp [opcodesLoop, ha]

/-- Two empty inputs produce no groups (the synthetic `equal` opcode is
dropped by the grouping loop). -/
lemma getGroupedOpcodes_nil_nil : getGroupedOpcodes [] [] = [] := by
  have h : getOpcodes ([] : List String) [] = [] := by simp [getOpcodes_nil_a]
  unfold getGroupedOpcodes
  rw [h]
  decide

/-- Groups of `([], b)` with `b` nonempty: a single one-opcode `insert`
group. -/
lemma getGroupedOpcodes_nil_a_pos (b : List String) (hb : 0 < b.length) :
    getGroupedOpcodes [] b = [[("insert", 0, 0, 0, b.length)]] := by
  have h : getOpcodes ([] : List String) b = [("insert", 0, 0, 0, b.length)] := by
    rw [getOpcodes_nil_a, if_pos hb]
  unfold getGroupedOpcodes
  rw [h]
  simp [fixupHead, fixupLast, groupSplit, groupedN]

/-- Groups of `(a, [])` with `a` nonempty: a single one-opcode `delete`
group. -/
lemma getGroupedOpcodes_nil_b_pos (a : List String) (ha : 0 < a.length) :
    getGroupedOpcodes a [] = [[("delete", 0, a.length, 0, 0)]] := by
  have h : getOpcodes a ([] : List String) = [("delete", 0, a.length, 0, 0)] := by
    rw [getOpcodes_nil_b, if_pos ha]
  unfold getGroupedOpcodes
  rw [h]
  simp [fixupHead, fixupLast, groupSplit, groupedN]

/-- Every body line of an opcode is a context, deletion, or insertion line. -/
lemma opcodeLines_shape (a b : List String) (c : Opcode) :
    ∀ l ∈ opcodeLines a b c,
      (∃ t, l = " " ++ t) ∨ (∃ t, l = "-" ++ t) ∨ (∃ t, l = "+" ++ t) := by
  rcases c with ⟨tag, i1, i2, j1, j2⟩
  intro l hl
  simp only [opcodeLines] at hl
  by_cases h1 : tag = "equal"
  · rw [if_pos h1] at hl
    rcases List.mem_map.mp hl with ⟨t, _, rfl⟩
    exact Or.inl ⟨t, rfl⟩
  · rw [if_neg h1] at hl
    rcases List.mem_append.mp hl with h | h
    · by_cases h2 : tag = "replace" ∨ tag = "delete"
      · rw [if_pos h2] at h
        rcases List.mem_map.mp h with ⟨t, _, rfl⟩
        exact Or.inr (Or.inl ⟨t, rfl⟩)
      · rw [if_neg h2] at h
        simp at h
    · by_cases h3 : tag = "replace" ∨ tag = "insert"
      · rw [if_pos h3] at h
        rcases List.mem_map.mp h with ⟨t, _, rfl⟩
        exact Or.inr (Or.inr ⟨t, rfl⟩)
      · rw [if_neg h3] at h
        simp at h

/-- Every hunk header starts with `"@@ -"`. -/
lemma groupHeader_atat (g : List Opcode) : ∃ t, groupHeader g = "@@ -" ++ t := by
  refine ⟨formatRangeUnified (g.headD ("", 0, 0, 0, 0)).2.1
      (g.getLastD ("", 0, 0, 0, 0)).2.2.1 ++
      (" +" ++ (formatRangeUnified (g.headD ("", 0, 0, 0, 0)).2.2.2.1
        (g.getLastD ("", 0, 0, 0, 0)).2.2.2.2 ++ " @@")), ?_⟩
  simp [groupHeader, String.append_assoc]

/-- Every line of the produced diff is one of the two file headers, a hunk
header, or a line marked as context, deletion, or insertion. -/
lemma unifiedDiffLines_shape (a b : List String) :
    ∀ l ∈ unifiedDiffLines a b,
      l = "--- " ∨ l = "+++ " ∨ (∃ t, l = "@@ -" ++ t) ∨
        (∃ t, l = " " ++ t) ∨ (∃ t, l = "-" ++ t) ∨ (∃ t, l = "+" ++ t) := by
  intro l hl
  unfold unifiedDiffLines at hl
  by_cases hg : getGroupedOpcodes a b = []
  · rw [if_pos hg] at hl
    simp at hl
  · rw [if_neg hg] at hl
    rcases List.mem_cons.mp hl with rfl | hl2
    · exact Or.inl rfl
    rcases List.mem_cons.mp hl2 with rfl | hl3
    · exact Or.inr (Or.inl rfl)
    rcases List.mem_flatMap.mp hl3 with ⟨g, hgm, hing⟩
    rcases List.mem_cons.mp hing with rfl | hin
    · exact Or.inr (Or.inr (Or.inl (groupHeader_atat g)))
    rcases List.mem_flatMap.mp hin with ⟨c, hcm, hlc⟩
    rcases opcodeLines_shape a b c l hlc with h | h | h
    · exact Or.inr (Or.inr (Or.inr (Or.inl h)))
    · exact Or.inr (Or.inr (Or.inr (Or.inr (Or.inl h))))
    · exact Or.inr (Or.inr (Or.inr (Or.inr (Or.inr h))))

/-- With an empty old side, every line of the diff is a header or an
insertion line. -/
lemma unifiedDiffLines_nil_a (b : List String) :
    ∀ l ∈ unifiedDiffLines [] b,
      l = "--- " ∨ l = "+++ " ∨ (∃ t, l = "@@ -" ++ t) ∨
        (∃ t, l = "+" ++ t) := by
  intro l hl
  by_cases hb : b.length = 0
  · have hbe : b = [] := List.length_eq_zero.mp hb
    subst hbe
    have h0 : unifiedDiffLines ([] : List String) [] = [] := by
      unfold unifiedDiffLines
      rw [getGroupedOpcodes_nil_nil]
      rw [if_pos rfl]
    rw [h0] at hl
    simp at hl
  · have hb' : 0 < b.length := Nat.pos_of_ne_zero hb
    unfold unifiedDiffLines at hl
    rw [getGroupedOpcodes_nil_a_pos b hb'] at hl
    rw [if_neg (by simp)] at hl
    simp only [List.flatMap_cons, List.flatMap_nil, List.append_nil] at hl
    rcases List.mem_cons.mp hl with rfl | hl2
    · exact Or.inl rfl
    rcases List.mem_cons.mp hl2 with rfl | hl3
    · exact Or.inr (Or.inl rfl)
    rcases List.mem_cons.mp hl3 with rfl | hl4
    · exact Or.inr (Or.inr (Or.inl (groupHeader_atat _)))
    have hmap : l ∈ (sliceList b 0 b.length).map (fun line => "+" ++ line) := by
      simpa [opcodeLines] using hl4
    rcases List.mem_map.mp hmap with ⟨t, _, rfl⟩
    exact Or.inr (Or.inr (Or.inr ⟨t, rfl⟩))

/-- With an empty new side, every line of the diff is a header or a deletion
line. -/
lemma unifiedDiffLines_nil_b (a : List String) :
    ∀ l ∈ unifiedDiffLines a [],
      l = "--- " ∨ l = "+++ " ∨ (∃ t, l = "@@ -" ++ t) ∨
        (∃ t, l = "-" ++ t) := by
  intro l hl
  by_cases ha : a.length = 0
  · have hae : a = [] := List.length_eq_zero.mp ha
    subst hae
    have h0 : unifiedDiffLines ([] : List String) [] = [] := by
      unfold unifiedDiffLines
      rw [getGroupedOpcodes_nil_nil]
      rw [if_pos rfl]
    rw [h0] at hl
    simp at hl
  · have ha' : 0 < a.length := Nat.pos_of_ne_zero ha
    unfold unifiedDiffLines at hl
    rw [getGroupedOpcodes_nil_b_pos a ha'] at hl
    rw [if_neg (by simp)] at hl
    simp only [List.flatMap_cons, List.flatMap_nil, List.append_nil] at hl
    rcases List.mem_cons.mp hl with rfl | hl2
    · exact Or.inl rfl
    rcases List.mem_cons.mp hl2 with rfl | hl3
    · exact Or.inr (Or.inl rfl)
    rcases List.mem_cons.mp hl3 with rfl | hl4
    · exact Or.inr (Or.inr (Or.inl (groupHeader_atat _)))
    have hmap : l ∈ (sliceList a 0 a.length).map (fun line => "-" ++ line) := by
      simpa [opcodeLines] using hl4
    rcases List.mem_map.mp hmap with ⟨t, _, rfl⟩
    exact Or.inr (Or.inr (Or.inr ⟨t, rfl⟩))

/-- C9: `TextDiff.diff` joins the line sequence of
`difflib.unified_diff(old.splitlines(), new.splitlines(), lineterm="")`,
whose computation is line-oriented: every element of that sequence is a file
header, a hunk header, or a context/deletion/insertion line.  The diff is
produced even when one side is empty: with `old = ""` every content line is
an insertion line, and with `new = ""` every content line is a deletion
line. -/
theorem textDiff_unified_format (old new : String) :
    TextDiff.diff old new =
      String.join (unifiedDiffLines (splitlines old) (splitlines new)) ∧
    (∀ l ∈ unifiedDiffLines (splitlines old) (splitlines new),
      l = "--- " ∨ l = "+++ " ∨ (∃ t, l = "@@ -" ++ t) ∨
        (∃ t, l = " " ++ t) ∨ (∃ t, l = "-" ++ t) ∨ (∃ t, l = "+" ++ t)) ∧
    (old = "" → ∀ l ∈ unifiedDiffLines (splitlines old) (splitlines new),
      l = "--- " ∨ l = "+++ " ∨ (∃ t, l = "@@ -" ++ t) ∨
        (∃ t, l = "+" ++ t)) ∧
    (new = "" → ∀ l ∈ unifiedDiffLines (splitlines old) (splitlines new),
      l = "--- " ∨ l = "+++ " ∨ (∃ t, l = "@@ -" ++ t) ∨
        (∃ t, l = "-" ++ t)) := by
  have hsp : splitlines "" = [] := rfl
  refine ⟨rfl, unifiedDiffLines_shape _ _, ?_, ?_⟩
  · intro h
    subst h
    rw [hsp]
    exact unifiedDiffLines_nil_a (splitlines new)
  · intro h
    subst h
    rw [hsp]
    exact unifiedDiffLines_nil_b (splitlines old)

/-- C9 witness: the empty-old hypothesis discharged at `old = ""`,
`new = "x"`. -/
theorem textDiff_unified_format_witness :
    ("" : String) = "" ∧
    (∀ l ∈ unifiedDiffLines (splitlines "") (splitlines "x"),
      l = "--- " ∨ l = "+++ " ∨ (∃ t, l = "@@ -" ++ t) ∨
        (∃ t, l = "+" ++ t)) :=
  ⟨rfl, (textDiff_unified_format "" "x").2.2.1 rfl⟩
